import Mathlib

/-
Verification of the SparNA pipeline (pipeline.py) against its specification.

The Python source is shallowly embedded: each function with decision logic
(assess_coverage, normalise/assemble plan generation, choose_reference,
genotype, list_fastqs, and the main per-sample stage loop) is translated to
an executable Lean definition operating on explicit data (lists of
characters for strings, association lists for Python dicts, integer exit
statuses for subprocess results).  File and subprocess side effects are
represented by environment data supplied to the definitions.
-/

/-! ## Error codes

`sys.exit('ERR_*')` sentinels used by pipeline.py, plus `EXC_UNCAUGHT`
representing termination by an uncaught Python exception (e.g. an
`IndexError` raised while parsing, or a `Bio` application error). -/

inductive ErrCode where
  | ERR_READS
  | ERR_IMPORT
  | ERR_COUNT
  | ERR_SAMPLE
  | ERR_MAP
  | ERR_TRIM
  | ERR_NORM
  | ERR_ASM
  | EXC_UNCAUGHT
deriving DecidableEq

/-! ## Coverage Analyzer (`assess_coverage`, pipeline.py lines 216-252)

The pileup file is embedded as the list of parsed `(site, depth)` pairs
(one per line, fields 1 and 3).  The run-length loop over uncovered sites
is translated statement by statement. -/

/-- `min_depth = 1` (pipeline.py line 218). -/
def minDepth : Nat := 1

/-- Accumulator of the `for uncovered_site in uncovered_sites` loop:
`uncovered_region`, `uncovered_regions`, `last_uncovered_site`,
`largest_uncovered_region` (pipeline.py lines 229-232). -/
structure CovState where
  region : Nat
  regions : List Nat
  lastSite : Nat
  largest : Nat
deriving DecidableEq

/-- Initial accumulator: all four variables start at zero / empty. -/
def covInit : CovState := ⟨0, [], 0, 0⟩

/-- One iteration of the loop body (pipeline.py lines 233-242). -/
def covStep (s : CovState) (site : Nat) : CovState :=
  if site = s.lastSite + 1 then
    { s with region := s.region + 1,
             largest := if s.region + 1 > s.largest then s.region + 1 else s.largest,
             lastSite := site }
  else
    { s with regions := if s.region > 0 then s.regions ++ [s.region] else s.regions,
             region := 1,
             lastSite := site }

/-- Sites whose depth is below `min_depth`, in input order
(pipeline.py lines 224-228). -/
def uncoveredSites (depths : List (Nat × Nat)) : List Nat :=
  (depths.filter (fun p => p.2 < minDepth)).map Prod.fst

/-- The loop of pipeline.py lines 233-242 run over the uncovered sites. -/
def assessCoverage (depths : List (Nat × Nat)) : CovState :=
  (uncoveredSites depths).foldl covStep covInit

/-- No element of the list equals its predecessor plus one. -/
def noAdjacentB : List Nat → Bool
  | [] => true
  | [_] => true
  | a :: b :: t => (b != a + 1) && noAdjacentB (b :: t)

/-! ## Parameter Sweep Generator (`normalise` / `assemble`,
pipeline.py lines 279-283 and 308-313) -/

/-- Python `str.split(sep)` for a single-character separator. -/
def pySplitChar (sep : Char) : List Char → List (List Char)
  | [] => [[]]
  | c :: rest =>
    if c = sep then
      [] :: pySplitChar sep rest
    else
      match pySplitChar sep rest with
      | [] => [[c]]
      | f :: fs => (c :: f) :: fs

/-- Python `str.split(sep)` on whole strings. -/
def pySplitS (sep : Char) (s : String) : List String :=
  (pySplitChar sep s.data).map String.mk

/-- `norm_perms = [{'k':k, 'c':c} for k in ks for c in cs]`
(pipeline.py lines 281-283). -/
def normPerms (normKList normCList : String) : List (String × String) :=
  (pySplitS ',' normKList).flatMap (fun k => (pySplitS ',' normCList).map (fun c => (k, c)))

/-- `asm_perms` (pipeline.py lines 310-313): each normalisation pair is
combined with untrusted-contigs toggle values `[1, 0]` when
`reference_found and asm_untrusted_contigs`, else `[0]` only. -/
def asmPerms (perms : List (String × String)) (asmUntrustedContigs refFound : Bool) :
    List (String × String × Nat) :=
  if refFound && asmUntrustedContigs then
    perms.flatMap (fun p => [1, 0].map (fun uc => (p.1, p.2, uc)))
  else
    perms.flatMap (fun p => [0].map (fun uc => (p.1, p.2, uc)))

/-! ## Similarity-hit parsing, Reference Selector (`choose_reference`,
pipeline.py lines 128-146) and genotype parsing (`genotype`,
pipeline.py lines 167-189)

A blast output file is embedded as its list of lines, each line a list of
characters.  Python `line.split('\t')[1]` raises `IndexError` on a line
with no tab; fallible indexing is embedded with `Option`, `none` meaning
the process dies with an uncaught exception. -/

/-- Python truthiness of `line.startswith('#')`. -/
def isCommentLine : List Char → Bool
  | '#' :: _ => true
  | _ => false

/-- `line.split('\t')[1]`: the accession field; `none` models the
`IndexError` Python raises when the line has fewer than two fields. -/
def lineField1 (line : List Char) : Option (List Char) :=
  (pySplitChar '\t' line)[1]?

/-- Accessions of all non-comment lines, or `none` if extracting any of
them raises (pipeline.py lines 132-134 / 171-173). -/
def hitAccessions (lines : List (List Char)) : Option (List (List Char)) :=
  (lines.filter (fun l => !(isCommentLine l))).mapM lineField1

/-- Python dict frequency counting
(`if x in d.keys(): d[x] += 1 else: d[x] = 1`), embedded as an
insertion-ordered association list (pipeline.py lines 135-137 / 174-176). -/
def addFreq {α : Type} [DecidableEq α] : List (α × Nat) → α → List (α × Nat)
  | [], a => [(a, 1)]
  | (k, v) :: rest, a =>
    if k = a then (k, v + 1) :: rest else (k, v) :: addFreq rest a

/-- Number of occurrences of an element in a list. -/
def countOcc {α : Type} [DecidableEq α] : List α → α → Nat
  | [], _ => 0
  | a :: t, k => (if a = k then 1 else 0) + countOcc t k

/-- The value stored for a key (0 when absent). -/
def freqOf {α : Type} [DecidableEq α] : List (α × Nat) → α → Nat
  | [], _ => 0
  | (h, v) :: rest, k => if h = k then v else freqOf rest k

/-- Keys of the table in insertion order. -/
def freqKeys {α : Type} (d : List (α × Nat)) : List α := d.map Prod.fst

/-- Python `max(d, key=d.get)`: the first key attaining the maximum
value in iteration order (a strictly greater value replaces the current
best). -/
def pyMaxPair {α : Type} : List (α × Nat) → Option (α × Nat)
  | [] => none
  | p :: rest => some (rest.foldl (fun best q => if best.2 < q.2 then q else best) p)

/-- Result of `choose_reference`: `reference_found`, `top_accession`, and
whether the no-reference warning was printed. -/
structure RefChoice where
  found : Bool
  top : Option (List Char)
  warned : Bool
deriving DecidableEq

/-- `choose_reference` (pipeline.py lines 128-146) on the blast lines;
`none` models death by uncaught `IndexError` while parsing a line. -/
def chooseReference (lines : List (List Char)) : Option RefChoice :=
  match hitAccessions lines with
  | none => none
  | some accs =>
    let freqs := accs.foldl addFreq []
    if freqs = [] then some ⟨false, none, true⟩
    else some ⟨true, (pyMaxPair freqs).map Prod.fst, false⟩

/-- `line.split('\t')[1].split('_')[1].split('.')[0]` applied to an
accession field (pipeline.py line 173); `none` models the `IndexError`
raised when the accession contains no underscore. -/
def genotypeToken (acc : List Char) : Option (List Char) :=
  match (pySplitChar '_' acc)[1]? with
  | none => none
  | some f => some ((pySplitChar '.' f).headD [])

/-- The `genotype_freqs` table built by `genotype`
(pipeline.py lines 169-176); `none` models death by uncaught
`IndexError`. -/
def genotypeFreqs (lines : List (List Char)) : Option (List (List Char × Nat)) :=
  match hitAccessions lines with
  | none => none
  | some accs =>
    match accs.mapM genotypeToken with
    | none => none
    | some gts => some (gts.foldl addFreq [])

/-- Python string `<`: lexicographic comparison on character code
points. -/
def pyStrLt : List Char → List Char → Bool
  | [], [] => false
  | [], _ :: _ => true
  | _ :: _, [] => false
  | a :: as, b :: bs => if a < b then true else if b < a then false else pyStrLt as bs

/-- Python 2 `round(x, 2)` on the nonnegative scores that occur here:
round half away from zero to two decimals, over exact rationals in place
of binary floats. -/
def pyRound2 (q : ℚ) : ℚ := (⌊q * 100 + 1 / 2⌋ : ℚ) / 100

/-- `genotype_props_pc = {k: round(genotype_freqs[k]/n_reads*1e4, 2)}`
(pipeline.py line 179), keeping table order. -/
def scoredGenotypes (freqs : List (List Char × Nat)) (nReads : Nat) :
    List (List Char × ℚ) :=
  freqs.map (fun p => (p.1, pyRound2 ((p.2 : ℚ) / (nReads : ℚ) * 10000)))

/-- Ascending comparison of `(genotype, score)` records by the Python
tuple key `(v, k)` from `sorted(..., key=lambda (k,v): (v,k))`. -/
def ascKey (p q : List Char × ℚ) : Prop :=
  p.2 < q.2 ∨ (p.2 = q.2 ∧ ¬ pyStrLt q.1 p.1 = true)

instance : DecidableRel ascKey := fun p q => by unfold ascKey; infer_instance

/-- Descending comparison: the order of the reversed sorted report. -/
def descKey (p q : List Char × ℚ) : Prop := ascKey q p

/-- `reversed(sorted(genotype_props_pc.items(), key=lambda (k,v):(v,k)))`
(pipeline.py line 181): the ranked genotype report as `(genotype, score)`
records. -/
def rankedReport (freqs : List (List Char × Nat)) (nReads : Nat) :
    List (List Char × ℚ) :=
  (List.insertionSort ascKey (scoredGenotypes freqs nReads)).reverse

/-- `top_genotype = max(genotype_freqs, key=genotype_freqs.get)`
(pipeline.py line 177). -/
def topGenotype (freqs : List (List Char × Nat)) : Option (List Char) :=
  (pyMaxPair freqs).map Prod.fst

/-! ## Sample Pairer (`list_fastqs`, pipeline.py lines 47-59)

The input directory listing is embedded as the list of file names. -/

/-- Python substring test `sig in s`. -/
def containsSub (needle hay : List Char) : Bool :=
  hay.tails.any (fun t => needle.isPrefixOf t)

/-- Python `s.replace(old, '')` for the fuel-indexed scan: removes every
non-overlapping occurrence of `old` left to right (replacing occurrences
of the empty string by the empty string is the identity).  One unit of
fuel is spent per examined character, so `s.length` fuel suffices. -/
def pyReplaceDelFuel (sig : List Char) : Nat → List Char → List Char
  | _, [] => []
  | 0, s => s
  | fuel + 1, c :: rest =>
    if !sig.isEmpty && sig.isPrefixOf (c :: rest) then
      pyReplaceDelFuel sig fuel ((c :: rest).drop sig.length)
    else
      c :: pyReplaceDelFuel sig fuel rest

/-- `p.replace(fwd_reads_sig, '')` (pipeline.py line 57). -/
def pyReplaceDel (sig s : List Char) : List Char :=
  pyReplaceDelFuel sig s.length s

/-- Python `s.rfind(c)`: index of the last occurrence, `-1` if absent. -/
def pyRfind (c : Char) (s : List Char) : Int :=
  match s.reverse.indexOf? c with
  | none => -1
  | some j => ((s.length - 1 - j : Nat) : Int)

/-- `os.path.splitext(p)[0]` (posixpath): the extension starts at the
last dot lying strictly after the last slash, provided at least one
non-dot character of the basename precedes that dot. -/
def pySplitextRoot (p : List Char) : List Char :=
  let sepIndex := pyRfind '/' p
  let dotIndex := pyRfind '.' p
  if sepIndex < dotIndex then
    if (List.range p.length).any (fun i =>
        decide (sepIndex + 1 ≤ (i : Int)) && decide ((i : Int) < dotIndex)
          && decide (p.getD i '.' ≠ '.')) then
      p.take dotIndex.toNat
    else p
  else p

/-- Python dict assignment `d[k] = v` on an insertion-ordered association
list: overwrite the existing entry or append a new one. -/
def dictInsert {κ ν : Type} [DecidableEq κ] (d : List (κ × ν)) (k : κ) (v : ν) :
    List (κ × ν) :=
  if d.any (fun q => decide (q.1 = k)) then
    d.map (fun q => if q.1 = k then (k, v) else q)
  else d ++ [(k, v)]

/-- The read-file extension, written twice in the original condition
(pipeline.py line 51). -/
def fastqExt : List Char := ".fastq".data

/-- Forward read paths: directory entries ending in `.fastq` and
containing the forward signature, prefixed by the input directory
(pipeline.py lines 50-53). -/
def fastqsF (files : List (List Char)) (fwdSig inDir : List Char) : List (List Char) :=
  (files.filter (fun f =>
      (fastqExt.isSuffixOf f || fastqExt.isSuffixOf f) && containsSub fwdSig f)).map
    (fun f => inDir ++ '/' :: f)

/-- Reverse read paths: directory entries ending in `.fastq`, not
containing the forward signature but containing the reverse one
(pipeline.py lines 50-55). -/
def fastqsR (files : List (List Char)) (fwdSig revSig inDir : List Char) :
    List (List Char) :=
  (files.filter (fun f =>
      (fastqExt.isSuffixOf f || fastqExt.isSuffixOf f)
        && !containsSub fwdSig f && containsSub revSig f)).map
    (fun f => inDir ++ '/' :: f)

/-- `fastq_pairs = zip(fastqs['f'], fastqs['r'])` (pipeline.py line 56). -/
def fastqPairs (files : List (List Char)) (fwdSig revSig inDir : List Char) :
    List (List Char × List Char) :=
  (fastqsF files fwdSig inDir).zip (fastqsR files fwdSig revSig inDir)

/-- The dict key of a pair:
`os.path.splitext(p[0].replace(fwd_reads_sig, ''))[0]`
(pipeline.py line 57) - computed from the forward path, directory prefix
included. -/
def pairKey (fwdSig : List Char) (p : List Char × List Char) : List Char :=
  pySplitextRoot (pyReplaceDel fwdSig p.1)

/-- The `fastq_pairs` dict comprehension (pipeline.py line 57). -/
def fastqPairsDict (files : List (List Char)) (fwdSig revSig inDir : List Char) :
    List (List Char × (List Char × List Char)) :=
  (fastqPairs files fwdSig revSig inDir).foldl
    (fun d p => dictInsert d (pairKey fwdSig p) p) []

/-- `list_fastqs` (pipeline.py lines 47-59): the forward and reverse path
lists plus the keyed pairs, or `sys.exit('ERR_READS')` when the pair dict
is empty (line 58). -/
def listFastqs (files : List (List Char)) (fwdSig revSig inDir : List Char) :
    Except ErrCode
      (List (List Char) × List (List Char) ×
        List (List Char × (List Char × List Char))) :=
  if fastqPairsDict files fwdSig revSig inDir = [] then
    Except.error ErrCode.ERR_READS
  else
    Except.ok (fastqsF files fwdSig inDir, fastqsR files fwdSig revSig inDir,
      fastqPairsDict files fwdSig revSig inDir)

/-! ## Pipeline Coordinator (`main`, pipeline.py lines 366-394)

The per-sample stage chain of the `for i, fastq_pair in enumerate(...)`
loop (lines 378-393).  Subprocess exit statuses are supplied by an
environment; a stage whose Python code checks the status exits with its
sentinel on a non-zero value, a stage that ignores the status continues
regardless.  `blast_references` raises a Biopython error on a failed
search (the `makeblastdb` status on line 119 is ignored), and `genotype`
raises `IndexError` on a malformed accession; both terminations are
embedded as `EXC_UNCAUGHT`.  Tool output parsing that always succeeds on
well-formed output (read counting, reference extraction, pileup parsing)
is abstracted into the environment. -/

inductive Stage where
  | sImport
  | sCount
  | sSample
  | sBlast
  | sChoose
  | sExtract
  | sGenotype
  | sMap
  | sCoverage
  | sTrim
  | sNorm
  | sAsm
  | sEval
deriving DecidableEq

/-- The sentinel a status-checked stage exits with (pipeline.py lines 86,
96, 109, 214, 277, 305, 334); `none` for the stages that never inspect a
subprocess exit status (`blast_references`, `choose_reference`,
`extract_reference`, `genotype`, `assess_coverage`, and
`evaluate_assemblies`, whose `os.system` result on line 350 is
discarded). -/
def stageCode : Stage → Option ErrCode
  | Stage.sImport => some ErrCode.ERR_IMPORT
  | Stage.sCount => some ErrCode.ERR_COUNT
  | Stage.sSample => some ErrCode.ERR_SAMPLE
  | Stage.sMap => some ErrCode.ERR_MAP
  | Stage.sTrim => some ErrCode.ERR_TRIM
  | Stage.sNorm => some ErrCode.ERR_NORM
  | Stage.sAsm => some ErrCode.ERR_ASM
  | _ => none

/-- Environment of one sample: the exit status each stage's external
command reports (for the sweep stages, of the first failing member),
whether the blast invocation succeeds, and the lines of the sample's
blast hit file. -/
structure SampleEnv where
  statuses : Stage → Int
  blastOk : Bool
  hits : List (List Char)

/-- The trim, normalise, assemble, evaluate tail shared by both branches
of the reference conditional (pipeline.py lines 389-392).  The evaluation
stage never consults its exit status (line 350). -/
def runTail (e : SampleEnv) : List Stage × Option ErrCode :=
  if e.statuses Stage.sTrim ≠ 0 then ([Stage.sTrim], some ErrCode.ERR_TRIM)
  else if e.statuses Stage.sNorm ≠ 0 then
    ([Stage.sTrim, Stage.sNorm], some ErrCode.ERR_NORM)
  else if e.statuses Stage.sAsm ≠ 0 then
    ([Stage.sTrim, Stage.sNorm, Stage.sAsm], some ErrCode.ERR_ASM)
  else ([Stage.sTrim, Stage.sNorm, Stage.sAsm, Stage.sEval], none)

/-- The body of the per-sample loop (pipeline.py lines 379-392): the
stages that start executing, in order, and the error the process dies
with, if any. -/
def runSample (e : SampleEnv) : List Stage × Option ErrCode :=
  if e.statuses Stage.sImport ≠ 0 then
    ([Stage.sImport], some ErrCode.ERR_IMPORT)
  else if e.statuses Stage.sCount ≠ 0 then
    ([Stage.sImport, Stage.sCount], some ErrCode.ERR_COUNT)
  else if e.statuses Stage.sSample ≠ 0 then
    ([Stage.sImport, Stage.sCount, Stage.sSample], some ErrCode.ERR_SAMPLE)
  else if !e.blastOk then
    ([Stage.sImport, Stage.sCount, Stage.sSample, Stage.sBlast],
      some ErrCode.EXC_UNCAUGHT)
  else
    match chooseReference e.hits with
    | none =>
      ([Stage.sImport, Stage.sCount, Stage.sSample, Stage.sBlast, Stage.sChoose],
        some ErrCode.EXC_UNCAUGHT)
    | some rc =>
      if rc.found then
        match genotypeFreqs e.hits with
        | none =>
          ([Stage.sImport, Stage.sCount, Stage.sSample, Stage.sBlast,
            Stage.sChoose, Stage.sExtract, Stage.sGenotype],
            some ErrCode.EXC_UNCAUGHT)
        | some _ =>
          if e.statuses Stage.sMap ≠ 0 then
            ([Stage.sImport, Stage.sCount, Stage.sSample, Stage.sBlast,
              Stage.sChoose, Stage.sExtract, Stage.sGenotype, Stage.sMap],
              some ErrCode.ERR_MAP)
          else
            ([Stage.sImport, Stage.sCount, Stage.sSample, Stage.sBlast,
              Stage.sChoose, Stage.sExtract, Stage.sGenotype, Stage.sMap,
              Stage.sCoverage] ++ (runTail e).1, (runTail e).2)
      else
        ([Stage.sImport, Stage.sCount, Stage.sSample, Stage.sBlast,
          Stage.sChoose] ++ (runTail e).1, (runTail e).2)

/-- The sample loop (pipeline.py line 378): samples numbered from
`start`; the trace records `(sample index, stage)` events, and the first
error aborts all remaining samples. -/
def runSamples (env : Nat → SampleEnv) : Nat → Nat → List (Nat × Stage) × Option ErrCode
  | _, 0 => ([], none)
  | start, n + 1 =>
    match (runSample (env start)).2 with
    | some c => ((runSample (env start)).1.map (fun s => (start, s)), some c)
    | none =>
      ((runSample (env start)).1.map (fun s => (start, s))
          ++ (runSamples env (start + 1) n).1,
        (runSamples env (start + 1) n).2)

/-- `main`'s loop over `enumerate(fastq_pairs, start=1)` run for `n`
samples. -/
def runPipeline (env : Nat → SampleEnv) (n : Nat) :
    List (Nat × Stage) × Option ErrCode :=
  runSamples env 1 n

/-! ### Frequency-table lemmas -/

lemma freqOf_addFreq {α : Type} [DecidableEq α] (d : List (α × Nat)) (a k : α) :
    freqOf (addFreq d a) k = freqOf d k + (if k = a then 1 else 0) := by
  induction d with
  | nil =>
    by_cases h : k = a
    · subst h; simp [addFreq, freqOf]
    · have h' : ¬ a = k := fun hc => h hc.symm
      simp [addFreq, freqOf, h, h']
  | cons p rest ih =>
    obtain ⟨h, v⟩ := p
    by_cases hha : h = a
    · subst hha
      by_cases hk : h = k
      · subst hk; simp [addFreq, freqOf]
      · have hk' : ¬ k = h := fun hc => hk hc.symm
        simp [addFreq, freqOf, hk, hk']
    · by_cases hk : h = k
      · subst hk
        simp [addFreq, freqOf, hha, fun hc => hha (hc : h = a)]
      · simp [addFreq, freqOf, hha, hk, ih]

lemma freqKeys_addFreq {α : Type} [DecidableEq α] (d : List (α × Nat)) (a : α) :
    freqKeys (addFreq d a)
      = if a ∈ freqKeys d then freqKeys d else freqKeys d ++ [a] := by
  induction d with
  | nil => simp [addFreq, freqKeys]
  | cons p rest ih =>
    obtain ⟨h, v⟩ := p
    by_cases hha : h = a
    · subst hha; simp [addFreq, freqKeys]
    · have hne : ¬ a = h := fun hc => hha hc.symm
      simp only [addFreq, if_neg hha, freqKeys, List.map_cons]
      have ihk : List.map Prod.fst (addFreq rest a)
          = if a ∈ List.map Prod.fst rest then List.map Prod.fst rest
            else List.map Prod.fst rest ++ [a] := ih
      by_cases hmem : a ∈ List.map Prod.fst rest
      · simp [ihk, hmem, hne]
      · simp [ihk, hmem, hne]

lemma mem_freqKeys_addFreq {α : Type} [DecidableEq α]
    (d : List (α × Nat)) (a k : α) :
    k ∈ freqKeys (addFreq d a) ↔ k ∈ freqKeys d ∨ k = a := by
  rw [freqKeys_addFreq]
  by_cases hmem : a ∈ freqKeys d
  · rw [if_pos hmem]
    constructor
    · exact Or.inl
    · rintro (h | h)
      · exact h
      · exact h ▸ hmem
  · rw [if_neg hmem]
    simp

lemma nodup_freqKeys_addFreq {α : Type} [DecidableEq α]
    (d : List (α × Nat)) (a : α) (hd : (freqKeys d).Nodup) :
    (freqKeys (addFreq d a)).Nodup := by
  rw [freqKeys_addFreq]
  by_cases hmem : a ∈ freqKeys d
  · simpa [hmem] using hd
  · simp [hmem, List.nodup_append, hd]

lemma countOcc_eq_zero {α : Type} [DecidableEq α] {l : List α} {b : α}
    (hb : b ∉ l) : countOcc l b = 0 := by
  induction l with
  | nil => rfl
  | cons a t ih =>
    have hab : ¬ a = b := fun hc => hb (hc ▸ List.mem_cons_self a t)
    have hbt : b ∉ t := fun hc => hb (List.mem_cons.mpr (Or.inr hc))
    simp [countOcc, hab, ih hbt]

lemma freqOf_foldl_addFreq {α : Type} [DecidableEq α]
    (accs : List α) :
    ∀ d : List (α × Nat), ∀ k,
      freqOf (accs.foldl addFreq d) k = freqOf d k + countOcc accs k := by
  induction accs with
  | nil => intro d k; simp [countOcc]
  | cons a t ih =>
    intro d k
    rw [List.foldl_cons, ih, freqOf_addFreq]
    by_cases h : k = a
    · subst h; simp [countOcc]; omega
    · have h' : ¬ a = k := fun hc => h hc.symm
      simp [countOcc, h, h']

lemma mem_freqKeys_foldl {α : Type} [DecidableEq α]
    (accs : List α) :
    ∀ d : List (α × Nat), ∀ k,
      k ∈ freqKeys (accs.foldl addFreq d) ↔ k ∈ freqKeys d ∨ k ∈ accs := by
  induction accs with
  | nil => intro d k; simp
  | cons a t ih =>
    intro d k
    rw [List.foldl_cons, ih, mem_freqKeys_addFreq]
    simp [or_assoc, or_comm, or_left_comm]

lemma nodup_freqKeys_foldl {α : Type} [DecidableEq α]
    (accs : List α) :
    ∀ d : List (α × Nat), (freqKeys d).Nodup →
      (freqKeys (accs.foldl addFreq d)).Nodup := by
  induction accs with
  | nil => intro d hd; simpa
  | cons a t ih =>
    intro d hd
    exact ih _ (nodup_freqKeys_addFreq d a hd)

lemma freqOf_of_mem {α : Type} [DecidableEq α]
    (d : List (α × Nat)) (hd : (freqKeys d).Nodup) {p : α × Nat}
    (hp : p ∈ d) : freqOf d p.1 = p.2 := by
  induction d with
  | nil => cases hp
  | cons q rest ih =>
    obtain ⟨h, v⟩ := q
    rcases List.mem_cons.mp hp with hq | hq
    · subst hq
      simp [freqOf]
    · have hd' : (h :: freqKeys rest).Nodup := hd
      obtain ⟨hnotin, hrest⟩ := List.nodup_cons.mp hd'
      have hkeys : p.1 ∈ freqKeys rest :=
        List.mem_map.mpr ⟨p, hq, rfl⟩
      have hh : h ≠ p.1 := fun hc => hnotin (hc ▸ hkeys)
      simp [freqOf, hh, ih hrest hq]

lemma pyMaxPair_spec {α : Type} (d : List (α × Nat)) (m : α × Nat)
    (hm : pyMaxPair d = some m) : m ∈ d ∧ ∀ q ∈ d, q.2 ≤ m.2 := by
  match d, hm with
  | p :: rest, hm =>
    have key : ∀ (l : List (α × Nat)) (p0 : α × Nat),
        (l.foldl (fun best q => if best.2 < q.2 then q else best) p0) ∈ p0 :: l ∧
        p0.2 ≤ (l.foldl (fun best q => if best.2 < q.2 then q else best) p0).2 ∧
        ∀ q ∈ l, q.2 ≤ (l.foldl (fun best q => if best.2 < q.2 then q else best) p0).2 := by
      intro l
      induction l with
      | nil => intro p0; simp
      | cons b t ih =>
        intro p0
        rw [List.foldl_cons]
        by_cases hb : p0.2 < b.2
        · have := ih b
          rw [if_pos hb]
          refine ⟨?_, ?_, ?_⟩
          · rcases List.mem_cons.mp this.1 with h | h
            · exact List.mem_cons.mpr (Or.inr (List.mem_cons.mpr (Or.inl h)))
            · exact List.mem_cons.mpr (Or.inr (List.mem_cons.mpr (Or.inr h)))
          · exact le_trans (le_of_lt hb) this.2.1
          · intro q hq
            rcases List.mem_cons.mp hq with hq | hq
            · subst hq; exact this.2.1
            · exact this.2.2 q hq
        · have := ih p0
          rw [if_neg hb]
          refine ⟨?_, this.2.1, ?_⟩
          · rcases List.mem_cons.mp this.1 with h | h
            · exact List.mem_cons.mpr (Or.inl h)
            · exact List.mem_cons.mpr (Or.inr (List.mem_cons.mpr (Or.inr h)))
          · intro q hq
            rcases List.mem_cons.mp hq with hq | hq
            · subst hq
              exact le_trans (le_of_not_lt hb) this.2.1
            · exact this.2.2 q hq
    have hk := key rest p
    have hmeq : m = rest.foldl (fun best q => if best.2 < q.2 then q else best) p := by
      simpa [pyMaxPair] using hm.symm
    subst hmeq
    refine ⟨hk.1, ?_⟩
    intro q hq
    rcases List.mem_cons.mp hq with hq | hq
    · subst hq; exact hk.2.1
    · exact hk.2.2 q hq

lemma freqs_ne_nil {α : Type} [DecidableEq α] (accs : List α)
    (hne : accs ≠ []) : accs.foldl addFreq ([] : List (α × Nat)) ≠ [] := by
  intro hnil
  match accs, hne with
  | a :: t, _ =>
    have : a ∈ freqKeys ((a :: t).foldl addFreq ([] : List (α × Nat))) :=
      (mem_freqKeys_foldl (a :: t) [] a).mpr (Or.inr (List.mem_cons_self a t))
    rw [hnil] at this
    simp [freqKeys] at this

lemma dictInsert_not_mem {κ ν : Type} [DecidableEq κ]
    (d : List (κ × ν)) (k : κ) (v : ν) (hk : k ∉ d.map Prod.fst) :
    dictInsert d k v = d ++ [(k, v)] := by
  unfold dictInsert
  rw [if_neg]
  intro h
  rw [List.any_eq_true] at h
  obtain ⟨q, hq, hq1⟩ := h
  rw [decide_eq_true_iff] at hq1
  exact hk (List.mem_map.mpr ⟨q, hq, hq1⟩)

lemma dictInsert_entry {κ ν : Type} [DecidableEq κ] {P : κ × ν → Prop}
    (d : List (κ × ν)) (k : κ) (v : ν) (hd : ∀ e ∈ d, P e) (hkv : P (k, v)) :
    ∀ e ∈ dictInsert d k v, P e := by
  intro e he
  unfold dictInsert at he
  by_cases h : d.any (fun q => decide (q.1 = k)) = true
  · rw [if_pos h] at he
    obtain ⟨q, hq, hqe⟩ := List.mem_map.mp he
    by_cases hq1 : q.1 = k
    · rw [if_pos hq1] at hqe
      exact hqe ▸ hkv
    · rw [if_neg hq1] at hqe
      exact hqe ▸ hd q hq
  · rw [if_neg h] at he
    rcases List.mem_append.mp he with h1 | h1
    · exact hd e h1
    · rw [List.mem_singleton.mp h1]
      exact hkv

lemma foldl_dictInsert_keys {κ ν : Type} [DecidableEq κ] (key : ν → κ)
    (ps : List ν) :
    ∀ d : List (κ × ν), (d.map Prod.fst ++ ps.map key).Nodup →
      (ps.foldl (fun d p => dictInsert d (key p) p) d).map Prod.fst
        = d.map Prod.fst ++ ps.map key := by
  induction ps with
  | nil => intro d _; simp
  | cons p t ih =>
    intro d hnd
    have hkp : key p ∉ d.map Prod.fst := by
      intro hmem
      have hdis := (List.nodup_append.mp hnd).2.2
      exact hdis hmem (by simp)
    rw [List.foldl_cons, dictInsert_not_mem d (key p) p hkp]
    have hnd' : ((d ++ [(key p, p)]).map Prod.fst ++ t.map key).Nodup := by
      simp only [List.map_append, List.map_cons, List.map_nil]
      simpa [List.append_assoc] using hnd
    rw [ih (d ++ [(key p, p)]) hnd']
    simp

lemma foldl_dictInsert_mem {κ ν : Type} [DecidableEq κ] (key : ν → κ)
    (ps all : List ν) :
    ∀ d : List (κ × ν), (∀ e ∈ d, e.1 = key e.2 ∧ e.2 ∈ all) →
      (∀ p ∈ ps, p ∈ all) →
      ∀ e ∈ ps.foldl (fun d p => dictInsert d (key p) p) d,
        e.1 = key e.2 ∧ e.2 ∈ all := by
  induction ps with
  | nil => intro d hd _; simpa using hd
  | cons p t ih =>
    intro d hd hall
    rw [List.foldl_cons]
    apply ih
    · exact dictInsert_entry d (key p) p hd
        ⟨rfl, hall p (List.mem_cons_self p t)⟩
    · intro q hq
      exact hall q (List.mem_cons.mpr (Or.inr hq))

lemma pyStrLt_irrefl : ∀ a : List Char, pyStrLt a a = false := by
  intro a
  induction a with
  | nil => rfl
  | cons c t ih => simp [pyStrLt, ih]

lemma pyStrLt_asymm : ∀ a b : List Char, pyStrLt a b = true → pyStrLt b a = false := by
  intro a
  induction a with
  | nil =>
    intro b h
    cases b with
    | nil => simp [pyStrLt] at h
    | cons c t => rfl
  | cons c t ih =>
    intro b h
    cases b with
    | nil => simp [pyStrLt] at h
    | cons d u =>
      by_cases hcd : c < d
      · have hdc : ¬ d < c := lt_asymm hcd
        simp [pyStrLt, hdc, hcd]
      · by_cases hdc : d < c
        · simp [pyStrLt, hcd, hdc] at h
        · have h' : pyStrLt t u = true := by simpa [pyStrLt, hcd, hdc] using h
          simp [pyStrLt, hcd, hdc, ih u h']

lemma pyStrLt_trans : ∀ a b c : List Char,
    pyStrLt a b = true → pyStrLt b c = true → pyStrLt a c = true := by
  intro a
  induction a with
  | nil =>
    intro b c hab hbc
    cases c with
    | nil =>
      cases b with
      | nil => simp [pyStrLt] at hab
      | cons d u => simp [pyStrLt] at hbc
    | cons e v => rfl
  | cons x xs ih =>
    intro b c hab hbc
    cases b with
    | nil => simp [pyStrLt] at hab
    | cons y ys =>
      cases c with
      | nil => simp [pyStrLt] at hbc
      | cons z zs =>
        by_cases hxy : x < y
        · by_cases hyz : y < z
          · have hxz : x < z := lt_trans hxy hyz
            simp [pyStrLt, hxz]
          · by_cases hzy : z < y
            · simp [pyStrLt, hyz, hzy] at hbc
            · have hyz' : y = z := le_antisymm (not_lt.mp hzy) (not_lt.mp hyz)
              subst hyz'
              simp [pyStrLt, hxy]
        · by_cases hyx : y < x
          · simp [pyStrLt, hxy, hyx] at hab
          · have hxy' : x = y := le_antisymm (not_lt.mp hyx) (not_lt.mp hxy)
            subst hxy'
            have hab' : pyStrLt xs ys = true := by simpa [pyStrLt, hxy] using hab
            by_cases hxz : x < z
            · simp [pyStrLt, hxz]
            · by_cases hzx : z < x
              · simp [pyStrLt, hxz, hzx] at hbc
              · have hbc' : pyStrLt ys zs = true := by simpa [pyStrLt, hxz, hzx] using hbc
                simp [pyStrLt, hxz, hzx, ih ys zs hab' hbc']

lemma pyStrLt_total : ∀ a b : List Char,
    pyStrLt a b = true ∨ a = b ∨ pyStrLt b a = true := by
  intro a
  induction a with
  | nil =>
    intro b
    cases b with
    | nil => exact Or.inr (Or.inl rfl)
    | cons c t => exact Or.inl rfl
  | cons x xs ih =>
    intro b
    cases b with
    | nil => exact Or.inr (Or.inr rfl)
    | cons y ys =>
      by_cases hxy : x < y
      · exact Or.inl (by simp [pyStrLt, hxy])
      · by_cases hyx : y < x
        · exact Or.inr (Or.inr (by simp [pyStrLt, hyx]))
        · have hx : x = y := le_antisymm (not_lt.mp hyx) (not_lt.mp hxy)
          subst hx
          rcases ih ys with h | h | h
          · exact Or.inl (by simp [pyStrLt, h])
          · exact Or.inr (Or.inl (by rw [h]))
          · exact Or.inr (Or.inr (by simp [pyStrLt, h]))

instance : IsTotal (List Char × ℚ) ascKey := by
  constructor
  intro p q
  rcases lt_trichotomy p.2 q.2 with h | h | h
  · exact Or.inl (Or.inl h)
  · rcases pyStrLt_total p.1 q.1 with hs | hs | hs
    · exact Or.inl (Or.inr ⟨h, by simp [pyStrLt_asymm _ _ hs]⟩)
    · exact Or.inl (Or.inr ⟨h, by simp [hs, pyStrLt_irrefl]⟩)
    · exact Or.inr (Or.inr ⟨h.symm, by simp [pyStrLt_asymm _ _ hs]⟩)
  · exact Or.inr (Or.inl h)

instance : IsTrans (List Char × ℚ) ascKey := by
  constructor
  intro p q r hpq hqr
  rcases hpq with h1 | ⟨h1, h1s⟩
  · rcases hqr with h2 | ⟨h2, _⟩
    · exact Or.inl (lt_trans h1 h2)
    · exact Or.inl (h2 ▸ h1)
  · rcases hqr with h2 | ⟨h2, h2s⟩
    · exact Or.inl (h1 ▸ h2)
    · refine Or.inr ⟨h1.trans h2, ?_⟩
      intro hrp
      rcases pyStrLt_total r.1 q.1 with hs | hs | hs
      · exact h2s hs
      · rw [hs] at hrp
        exact h1s hrp
      · exact h1s (pyStrLt_trans _ _ _ hs hrp)

lemma pySplitChar_ne_nil (sep : Char) (s : List Char) :
    pySplitChar sep s ≠ [] := by
  induction s with
  | nil => simp [pySplitChar]
  | cons c rest ih =>
    unfold pySplitChar
    by_cases hc : c = sep
    · simp [hc]
    · rw [if_neg hc]
      cases h : pySplitChar sep rest with
      | nil => simp
      | cons f fs => simp

lemma pySplitChar_length_two (sep : Char) (s : List Char) (h : sep ∈ s) :
    2 ≤ (pySplitChar sep s).length := by
  induction s with
  | nil => cases h
  | cons c rest ih =>
    unfold pySplitChar
    by_cases hc : c = sep
    · rw [if_pos hc]
      have := pySplitChar_ne_nil sep rest
      have : 1 ≤ (pySplitChar sep rest).length := by
        cases hr : pySplitChar sep rest with
        | nil => exact absurd hr this
        | cons f fs => simp
      simpa using this
    · rw [if_neg hc]
      have hmem : sep ∈ rest := by
        rcases List.mem_cons.mp h with h1 | h1
        · exact absurd h1.symm hc
        · exact h1
      have hlen := ih hmem
      cases hr : pySplitChar sep rest with
      | nil => exact absurd hr (pySplitChar_ne_nil sep rest)
      | cons f fs =>
        rw [hr] at hlen
        simpa using hlen

/-! ### Coverage loop lemmas -/

lemma covStep_sum (s : CovState) (site : Nat) :
    (covStep s site).regions.sum + (covStep s site).region
      = s.regions.sum + s.region + 1 := by
  unfold covStep
  split_ifs with h1 h2 <;> simp <;> omega

lemma covFold_sum (l : List Nat) :
    ∀ s : CovState,
      (l.foldl covStep s).regions.sum + (l.foldl covStep s).region
        = s.regions.sum + s.region + l.length := by
  induction l with
  | nil => intro s; simp
  | cons a t ih =>
    intro s
    rw [List.foldl_cons, ih (covStep s a), covStep_sum]
    simp
    omega

lemma covFold_largest_zero (l : List Nat) :
    ∀ s : CovState, s.largest = 0 → l.head? ≠ some (s.lastSite + 1) →
      noAdjacentB l = true → (l.foldl covStep s).largest = 0 := by
  induction l with
  | nil => intro s h _ _; simpa using h
  | cons a t ih =>
    intro s hlg hhd hna
    have ha : a ≠ s.lastSite + 1 := by
      intro h; exact hhd (by simp [h])
    rw [List.foldl_cons]
    have hstep : covStep s a = { s with regions := if s.region > 0 then s.regions ++ [s.region] else s.regions,
                                        region := 1, lastSite := a } := by
      unfold covStep; rw [if_neg ha]
    apply ih
    · rw [hstep]; exact hlg
    · rw [hstep]
      match t, hna with
      | [], _ => simp
      | b :: t', hna =>
        have : (b != a + 1) = true := by
          have := hna
          unfold noAdjacentB at this
          exact (Bool.and_eq_true_iff.mp this).1
        simp only [List.head?, ne_eq, Option.some.injEq]
        intro hb
        rw [hb] at this
        simp at this
    · match t, hna with
      | [], _ => rfl
      | b :: t', hna =>
        have := hna
        unfold noAdjacentB at this
        exact (Bool.and_eq_true_iff.mp this).2

lemma asm_flatMap_length (l : List (String × String)) (us : List Nat) :
    (l.flatMap (fun p => us.map (fun uc => (p.1, p.2, uc)))).length
      = l.length * us.length := by
  induction l with
  | nil => simp
  | cons a t ih =>
    simp [List.flatMap_cons, ih]
    ring

/-! ## Claim theorems for the Coverage Analyzer and the Sweep Generator -/

/-- C3 (amended): for the depth table `[(1,0),(2,0),(3,5),(4,0)]` with
`min_depth = 1`, the uncovered sites are `[1, 2, 4]` and the largest
uncovered region is `2`, but the collected region-length list is `[2]`:
the final run (site 4, length 1) is never appended, because the loop only
flushes a run when a later gap is encountered. -/
theorem c3_coverage_example :
    uncoveredSites [(1,0),(2,0),(3,5),(4,0)] = [1, 2, 4] ∧
    (assessCoverage [(1,0),(2,0),(3,5),(4,0)]).regions = [2] ∧
    (assessCoverage [(1,0),(2,0),(3,5),(4,0)]).largest = 2 := by
  decide

/-- C3 counterexample: the claimed region-length list `[2, 1]` is not what
the code computes for this table; the trailing region of length 1 is
dropped. -/
theorem c3_coverage_counterexample :
    (assessCoverage [(1,0),(2,0),(3,5),(4,0)]).regions ≠ [2, 1] := by
  decide

/-- C4 (amended): for every depth table, the collected uncovered-region
lengths plus the final in-progress run length (held in `uncovered_region`
and never appended after the loop) sum to the total count of uncovered
sites.  The collected lengths alone undercount by exactly that final run. -/
theorem c4_region_sum :
    ∀ depths : List (Nat × Nat),
      (assessCoverage depths).regions.sum + (assessCoverage depths).region
        = (uncoveredSites depths).length := by
  intro depths
  unfold assessCoverage
  rw [covFold_sum]
  simp [covInit]

/-- C4 counterexample: for the table `[(1,0)]` there is one uncovered site
but the collected region lengths sum to `0`, refuting the claim that they
always sum to the uncovered-site count. -/
theorem c4_region_sum_counterexample :
    (assessCoverage [(1,0)]).regions.sum ≠ (uncoveredSites [(1,0)]).length := by
  decide

/-- C10 (confirmed): whenever the uncovered sites are pairwise
non-adjacent and the first one is not at position 1, no site ever extends
a run, so `largest_uncovered_region` stays 0 even though uncovered sites
exist. -/
theorem c10_isolated_sites (depths : List (Nat × Nat))
    (_hne : uncoveredSites depths ≠ [])
    (hhd : (uncoveredSites depths).head? ≠ some 1)
    (hadj : noAdjacentB (uncoveredSites depths) = true) :
    (assessCoverage depths).largest = 0 := by
  unfold assessCoverage
  exact covFold_largest_zero (uncoveredSites depths) covInit rfl hhd hadj

/-- C10 witness: the table `[(2,0),(4,0)]` has two uncovered sites, both
isolated, and the computed largest uncovered region is 0. -/
theorem c10_isolated_sites_witness :
    uncoveredSites [(2,0),(4,0)] ≠ [] ∧
    (uncoveredSites [(2,0),(4,0)]).head? ≠ some 1 ∧
    noAdjacentB (uncoveredSites [(2,0),(4,0)]) = true ∧
    (assessCoverage [(2,0),(4,0)]).largest = 0 :=
  ⟨by decide, by decide, by decide,
    c10_isolated_sites [(2,0),(4,0)] (by decide) (by decide) (by decide)⟩

/-- C5 (confirmed): the normalisation plan is the cartesian product of the
comma-split k-list and c-list with k outermost; the assembly plan has
`|normalisation pairs| × 2` entries when a reference was found and
untrusted-contig assembly was requested, else
`|normalisation pairs| × 1` entries with the untrusted-contigs toggle
forced to 0 regardless of the flag. -/
theorem c5_sweep_plan :
    ∀ (kl cl : String) (f r : Bool),
      normPerms kl cl = List.product (pySplitS ',' kl) (pySplitS ',' cl) ∧
      (asmPerms (normPerms kl cl) f r).length
        = (normPerms kl cl).length * (if r && f then 2 else 1) ∧
      ((r && f) = false →
        ∀ p ∈ asmPerms (normPerms kl cl) f r, p.2.2 = 0) := by
  intro kl cl f r
  refine ⟨by simp [normPerms, List.product], ?_, ?_⟩
  · unfold asmPerms
    by_cases h : (r && f) = true
    · rw [if_pos h, if_pos h, asm_flatMap_length]
      simp
    · rw [if_neg h, if_neg h, asm_flatMap_length]
      simp
  · intro h p hp
    unfold asmPerms at hp
    rw [if_neg (by simp [h])] at hp
    simp [List.mem_flatMap] at hp
    obtain ⟨a, b, _, h2⟩ := hp
    simp [h2]

/-- C5 witness: k-list `"21,33"` and c-list `"5"` give the 2-entry
normalisation plan `[("21","5"), ("33","5")]`; the assembly plan has 4
entries when a reference was found and untrusted contigs were requested,
and 2 entries with every toggle 0 when no reference was found. -/
theorem c5_sweep_plan_witness :
    normPerms "21,33" "5" = [("21", "5"), ("33", "5")] ∧
    (asmPerms (normPerms "21,33" "5") true true).length = 4 ∧
    (asmPerms (normPerms "21,33" "5") true false).length = 2 ∧
    (∀ p ∈ asmPerms (normPerms "21,33" "5") true false, p.2.2 = 0) :=
  ⟨by decide, by decide, by decide,
    (c5_sweep_plan "21,33" "5" true false).2.2 (by decide)⟩

/-! ## Claim theorems for the Reference Selector and genotype parsing -/

/-- C6 (confirmed): for every non-empty similarity-hit list, the Reference
Selector reports `reference_found` and returns an accession whose
frequency among the hits is maximal. -/
theorem c6_reference_majority :
    ∀ (lines accs : List (List Char)),
      hitAccessions lines = some accs → accs ≠ [] →
      ∃ a, chooseReference lines = some ⟨true, some a, false⟩ ∧
        a ∈ accs ∧ ∀ b, countOcc accs b ≤ countOcc accs a := by
  intro lines accs hacc hne
  have hfr : accs.foldl addFreq ([] : List (List Char × Nat)) ≠ [] :=
    freqs_ne_nil accs hne
  have hnd : (freqKeys (accs.foldl addFreq ([] : List (List Char × Nat)))).Nodup :=
    nodup_freqKeys_foldl accs [] (by simp [freqKeys])
  obtain ⟨m, hpm⟩ : ∃ m, pyMaxPair (accs.foldl addFreq ([] : List (List Char × Nat))) = some m := by
    cases hf : accs.foldl addFreq ([] : List (List Char × Nat)) with
    | nil => exact absurd hf hfr
    | cons p rest => exact ⟨_, rfl⟩
  obtain ⟨hmem, hmax⟩ := pyMaxPair_spec _ m hpm
  refine ⟨m.1, ?_, ?_, ?_⟩
  · unfold chooseReference
    rw [hacc]
    simp only [if_neg hfr, hpm]
    rfl
  · have hkey : m.1 ∈ freqKeys (accs.foldl addFreq ([] : List (List Char × Nat))) :=
      List.mem_map.mpr ⟨m, hmem, rfl⟩
    rcases (mem_freqKeys_foldl accs [] m.1).mp hkey with h | h
    · simp [freqKeys] at h
    · exact h
  · intro b
    have h1 := freqOf_of_mem _ hnd hmem
    have h2 : freqOf (accs.foldl addFreq ([] : List (List Char × Nat))) m.1
        = countOcc accs m.1 := by
      have := freqOf_foldl_addFreq accs [] m.1
      simpa [freqOf] using this
    have hma : m.2 = countOcc accs m.1 := h1.symm.trans h2
    by_cases hb : b ∈ accs
    · have hkey : b ∈ freqKeys (accs.foldl addFreq ([] : List (List Char × Nat))) :=
        (mem_freqKeys_foldl accs [] b).mpr (Or.inr hb)
      obtain ⟨q, hq, hq1⟩ := List.mem_map.mp hkey
      have hv : freqOf (accs.foldl addFreq ([] : List (List Char × Nat))) q.1 = q.2 :=
        freqOf_of_mem _ hnd hq
      have h3 : freqOf (accs.foldl addFreq ([] : List (List Char × Nat))) q.1
          = countOcc accs q.1 := by
        have := freqOf_foldl_addFreq accs [] q.1
        simpa [freqOf] using this
      have hcount : countOcc accs b = q.2 := by rw [← hq1, ← hv, h3]
      have := hmax q hq
      omega
    · have : countOcc accs b = 0 := countOcc_eq_zero hb
      omega

/-- C6 witness: for the hit lines with accessions `[A, A, B, A, B]` the
winner is `A` with count 3, at least the count of every accession. -/
theorem c6_reference_majority_witness :
    hitAccessions ["q\tA".data, "q\tA".data, "q\tB".data, "q\tA".data, "q\tB".data]
      = some ["A".data, "A".data, "B".data, "A".data, "B".data] ∧
    (∃ a, chooseReference ["q\tA".data, "q\tA".data, "q\tB".data, "q\tA".data, "q\tB".data]
        = some ⟨true, some a, false⟩ ∧
      a ∈ ["A".data, "A".data, "B".data, "A".data, "B".data] ∧
      ∀ b, countOcc ["A".data, "A".data, "B".data, "A".data, "B".data] b
        ≤ countOcc ["A".data, "A".data, "B".data, "A".data, "B".data] a) ∧
    chooseReference ["q\tA".data, "q\tA".data, "q\tB".data, "q\tA".data, "q\tB".data]
      = some ⟨true, some "A".data, false⟩ :=
  ⟨by decide,
   c6_reference_majority _ _ (by decide) (by decide),
   by decide⟩

/-- C8 counterexample: the accession `ACC` contains no underscore, and
genotype parsing raises an `IndexError` (embedded as `none`) instead of
completing with a garbage label; the whole genotyping pass over a hit
line with that accession dies the same way. -/
theorem c8_genotype_parse_counterexample :
    ('_' ∉ "ACC".data) ∧ genotypeToken "ACC".data = none ∧
      genotypeFreqs ["q\tACC".data] = none := by
  decide

/-- C8 (amended): genotype parsing completes without raising only for
accessions containing at least one underscore; for those it always
produces some (possibly empty or garbage) genotype label. -/
theorem c8_genotype_parse :
    ∀ acc : List Char, '_' ∈ acc → ∃ g, genotypeToken acc = some g := by
  intro acc h
  have h2 : 2 ≤ (pySplitChar '_' acc).length := pySplitChar_length_two '_' acc h
  obtain ⟨f, hget⟩ : ∃ f, (pySplitChar '_' acc)[1]? = some f := by
    rw [List.getElem?_eq_getElem (by omega)]
    exact ⟨_, rfl⟩
  exact ⟨_, by unfold genotypeToken; rw [hget]⟩

/-- C8 witness: the accession `AB_` does not follow the naming convention
but contains an underscore, and parsing yields the empty genotype label
without raising. -/
theorem c8_genotype_parse_witness :
    ('_' ∈ "AB_".data) ∧ (∃ g, genotypeToken "AB_".data = some g) ∧
      genotypeToken "AB_".data = some [] :=
  ⟨by decide, c8_genotype_parse "AB_".data (by decide), by decide⟩

/-! ## Claim theorems for the Genotype Classifier -/

/-- C7 (amended): for every non-empty genotype frequency table, the
ranked report is a permutation of the scored entries ordered descending
by rounded score with ties broken DESCENDING by genotype label (the
reverse of an ascending sort on the key `(score, label)` reverses the
label tie-break too), while the separately returned top genotype is an
arg-max by raw count, independent of the rounding. -/
theorem c7_genotype_ranking :
    ∀ (freqs : List (List Char × Nat)) (nReads : Nat), freqs ≠ [] →
      (rankedReport freqs nReads).Perm (scoredGenotypes freqs nReads) ∧
      (rankedReport freqs nReads).Sorted descKey ∧
      ∃ p, topGenotype freqs = some p.1 ∧ p ∈ freqs ∧ ∀ q ∈ freqs, q.2 ≤ p.2 := by
  intro freqs n hne
  refine ⟨?_, ?_, ?_⟩
  · exact (List.reverse_perm _).trans (List.perm_insertionSort ascKey _)
  · have hs := List.sorted_insertionSort ascKey (scoredGenotypes freqs n)
    unfold rankedReport
    rw [List.Sorted, List.pairwise_reverse]
    exact hs
  · obtain ⟨m, hm⟩ : ∃ m, pyMaxPair freqs = some m := by
      cases freqs with
      | nil => exact absurd rfl hne
      | cons p rest => exact ⟨_, rfl⟩
    obtain ⟨hmem, hmax⟩ := pyMaxPair_spec freqs m hm
    exact ⟨m, by simp [topGenotype, hm], hmem, hmax⟩

/-- C7 witness: the ranking and top-genotype properties instantiated for
the frequency table `{a: 1, b: 1}` with 10 total reads. -/
theorem c7_genotype_ranking_witness :
    ([("a".data, (1 : Nat)), ("b".data, 1)] : List (List Char × Nat)) ≠ [] ∧
    ((rankedReport [("a".data, 1), ("b".data, 1)] 10).Perm
        (scoredGenotypes [("a".data, 1), ("b".data, 1)] 10) ∧
      (rankedReport [("a".data, 1), ("b".data, 1)] 10).Sorted descKey ∧
      ∃ p, topGenotype [("a".data, 1), ("b".data, 1)] = some p.1 ∧
        p ∈ [("a".data, (1 : Nat)), ("b".data, 1)] ∧
        ∀ q ∈ [("a".data, (1 : Nat)), ("b".data, 1)], q.2 ≤ p.2) :=
  ⟨by decide, c7_genotype_ranking [("a".data, 1), ("b".data, 1)] 10 (by decide)⟩

/-- C7 counterexample: with frequency table `{a: 1, b: 1}` and 10 total
reads, both scores round to 1000.0 and the ranked report lists `b` before
`a` although `a` precedes `b` lexicographically: the tie is broken
descending by label, not ascending as claimed. -/
theorem c7_rank_tie_counterexample :
    pyStrLt "a".data "b".data = true ∧
    rankedReport [("a".data, 1), ("b".data, 1)] 10
      = [("b".data, 1000), ("a".data, 1000)] := by
  constructor
  · decide
  · have hsg : scoredGenotypes [("a".data, 1), ("b".data, 1)] 10
        = [("a".data, 1000), ("b".data, 1000)] := by
      simp only [scoredGenotypes, List.map_cons, List.map_nil, pyRound2]
      norm_num
    have hba : pyStrLt "b".data "a".data = false := by decide
    unfold rankedReport
    rw [hsg]
    simp [List.insertionSort, List.orderedInsert, ascKey, hba]

/-! ## Claim theorems for the Sample Pairer -/

/-- C9 (amended): pairing zips the forward and reverse path lists (N
pairs when both have N elements); every dict entry is keyed by the
forward *path* (input directory included) with every occurrence of the
forward signature removed and the extension split off, and the dict has
one entry per pair provided the stripped keys are distinct; an empty pair
dict makes `list_fastqs` exit with `ERR_READS` (the NoInputError). -/
theorem c9_sample_pairer :
    ∀ (files : List (List Char)) (fwdSig revSig inDir : List Char),
      (fastqPairs files fwdSig revSig inDir).length
        = min (fastqsF files fwdSig inDir).length
            (fastqsR files fwdSig revSig inDir).length ∧
      (((fastqPairs files fwdSig revSig inDir).map (pairKey fwdSig)).Nodup →
        (fastqPairsDict files fwdSig revSig inDir).length
          = (fastqPairs files fwdSig revSig inDir).length) ∧
      (∀ e ∈ fastqPairsDict files fwdSig revSig inDir,
        e.1 = pairKey fwdSig e.2 ∧ e.2 ∈ fastqPairs files fwdSig revSig inDir) ∧
      (fastqPairsDict files fwdSig revSig inDir = [] ↔
        listFastqs files fwdSig revSig inDir = Except.error ErrCode.ERR_READS) := by
  intro files fwdSig revSig inDir
  refine ⟨?_, ?_, ?_, ?_⟩
  · simp [fastqPairs, List.length_zip]
  · intro hnd
    have hkeys := foldl_dictInsert_keys (pairKey fwdSig)
      (fastqPairs files fwdSig revSig inDir) [] (by simpa using hnd)
    have : (fastqPairsDict files fwdSig revSig inDir).map Prod.fst
        = (fastqPairs files fwdSig revSig inDir).map (pairKey fwdSig) := by
      simpa [fastqPairsDict] using hkeys
    have hlen := congrArg List.length this
    simpa using hlen
  · exact foldl_dictInsert_mem (pairKey fwdSig) _ _ [] (by simp)
      (fun p hp => hp)
  · constructor
    · intro h
      simp [listFastqs, h]
    · intro h
      by_cases hne : fastqPairsDict files fwdSig revSig inDir = []
      · exact hne
      · simp [listFastqs, hne] at h

/-- C9 witness: one forward and one reverse file with signatures `_F` and
`_R` yield exactly one pair, whose key has distinct stripped form, and the
claim theorem instantiates to it; an input with no matching files yields
`ERR_READS`. -/
theorem c9_sample_pairer_witness :
    ((fastqPairs ["s1_F.fastq".data, "s1_R.fastq".data] "_F".data "_R".data
        "data".data).map (pairKey "_F".data)).Nodup ∧
    ((fastqPairsDict ["s1_F.fastq".data, "s1_R.fastq".data] "_F".data "_R".data
        "data".data).length
      = (fastqPairs ["s1_F.fastq".data, "s1_R.fastq".data] "_F".data "_R".data
          "data".data).length) ∧
    (fastqPairs ["s1_F.fastq".data, "s1_R.fastq".data] "_F".data "_R".data
        "data".data).length = 1 ∧
    listFastqs [] "_F".data "_R".data "data".data
      = Except.error ErrCode.ERR_READS :=
  ⟨by decide,
   (c9_sample_pairer ["s1_F.fastq".data, "s1_R.fastq".data] "_F".data "_R".data
      "data".data).2.1 (by decide),
   by decide, rfl⟩

/-- C9 counterexample: the single pair is keyed `data/s1` - the full
forward path with extension and signature stripped - not the basename
`s1` the claim describes. -/
theorem c9_basename_counterexample :
    fastqPairsDict ["s1_F.fastq".data, "s1_R.fastq".data] "_F".data "_R".data
        "data".data
      = [("data/s1".data, ("data/s1_F.fastq".data, "data/s1_R.fastq".data))] ∧
    "data/s1".data ≠ "s1".data := by
  decide

/-! ## Claim theorems for the Pipeline Coordinator -/

set_option maxHeartbeats 2000000 in
lemma runSample_checked (e : SampleEnv) (st : Stage) (c : ErrCode)
    (hcode : stageCode st = some c) (hmem : st ∈ (runSample e).1)
    (hst : e.statuses st ≠ 0) :
    (runSample e).2 = some c ∧ (runSample e).1.getLast? = some st := by
  unfold runSample runTail at hmem ⊢
  generalize chooseReference e.hits = xcr at hmem ⊢
  generalize genotypeFreqs e.hits = xgf at hmem ⊢
  cases xcr with
  | none =>
    simp only [] at hmem ⊢
    cases st <;> simp only [stageCode] at hcode <;>
      first
        | exact Option.noConfusion hcode
        | (injection hcode with hc; subst hc;
           split_ifs at hmem ⊢ <;> simp_all)
  | some rc =>
    obtain ⟨found, top, warned⟩ := rc
    cases found <;> cases xgf <;> simp only [] at hmem ⊢ <;>
      cases st <;> simp only [stageCode] at hcode <;>
      first
        | exact Option.noConfusion hcode
        | (injection hcode with hc; subst hc;
           split_ifs at hmem ⊢ <;> simp_all)

lemma runSamples_fail_fast (env : Nat → SampleEnv) :
    ∀ (n start j : Nat) (c : ErrCode), start ≤ j → j < start + n →
      (∀ j', start ≤ j' → j' < j → (runSample (env j')).2 = none) →
      (runSample (env j)).2 = some c →
      (runSamples env start n).2 = some c ∧
        ∀ p ∈ (runSamples env start n).1, p.1 ≤ j := by
  intro n
  induction n with
  | zero =>
    intro start j c h1 h2 _ _
    omega
  | succ n ih =>
    intro start j c h1 h2 hprev hfail
    by_cases hj : j = start
    · subst hj
      unfold runSamples
      rw [hfail]
      refine ⟨rfl, ?_⟩
      intro p hp
      obtain ⟨st, _, hst2⟩ := List.mem_map.mp hp
      subst hst2
      simp
    · have hst : start < j := lt_of_le_of_ne h1 (Ne.symm hj)
      have h0 : (runSample (env start)).2 = none := hprev start le_rfl hst
      have hrec := ih (start + 1) j c (by omega) (by omega)
        (fun j' hj1 hj2 => hprev j' (by omega) hj2) hfail
      unfold runSamples
      rw [h0]
      refine ⟨hrec.1, ?_⟩
      intro p hp
      rcases List.mem_append.mp hp with hp1 | hp1
      · obtain ⟨st, _, hst2⟩ := List.mem_map.mp hp1
        subst hst2
        simp
        omega
      · exact hrec.2 p hp1

/-- C1 (amended): whenever a status-checking stage (import, count,
sample, align, trim, normalise, assemble - the stages with a sentinel
error code) is reached and its external command reports a non-zero exit
status, the whole process terminates at that stage with that stage's
error code, and no stage of any later sample executes; stages that do not
inspect their subprocess status (blast index build, evaluation, report
copying) do not terminate the run on failure. -/
theorem c1_fail_fast :
    (∀ (e : SampleEnv) (st : Stage) (c : ErrCode),
      stageCode st = some c → st ∈ (runSample e).1 → e.statuses st ≠ 0 →
      (runSample e).2 = some c ∧ (runSample e).1.getLast? = some st) ∧
    (∀ (env : Nat → SampleEnv) (n j : Nat) (c : ErrCode),
      1 ≤ j → j ≤ n →
      (∀ j', 1 ≤ j' → j' < j → (runSample (env j')).2 = none) →
      (runSample (env j)).2 = some c →
      (runPipeline env n).2 = some c ∧
        ∀ p ∈ (runPipeline env n).1, p.1 ≤ j) :=
  ⟨runSample_checked,
   fun env n j c h1 h2 h3 h4 =>
     runSamples_fail_fast env n 1 j c h1 (by omega) h3 h4⟩

/-- C1 witness: with 3 samples where sample 2's trim command exits 1, the
run dies with `ERR_TRIM` and every executed stage belongs to samples 1 or
2 - no stage of sample 3 runs. -/
theorem c1_fail_fast_witness :
    (runSample (SampleEnv.mk (fun st => if st = Stage.sTrim then 1 else 0)
        true [['#']])).2
      = some ErrCode.ERR_TRIM ∧
    (runPipeline (fun j => if j = 2 then
        SampleEnv.mk (fun st => if st = Stage.sTrim then 1 else 0) true [['#']]
      else SampleEnv.mk (fun _ => 0) true [['#']]) 3).2
      = some ErrCode.ERR_TRIM ∧
    ∀ p ∈ (runPipeline (fun j => if j = 2 then
        SampleEnv.mk (fun st => if st = Stage.sTrim then 1 else 0) true [['#']]
      else SampleEnv.mk (fun _ => 0) true [['#']]) 3).1,
      p.1 ≤ 2 := by
  refine ⟨by decide, ?_⟩
  have h := c1_fail_fast.2
    (fun j => if j = 2 then
        SampleEnv.mk (fun st => if st = Stage.sTrim then 1 else 0) true [['#']]
      else SampleEnv.mk (fun _ => 0) true [['#']])
    3 2 ErrCode.ERR_TRIM (by omega) (by omega)
    (by
      intro j' hj1 hj2
      have hj : j' = 1 := by omega
      subst hj
      decide)
    (by decide)
  exact h

/-- C1 counterexample: the evaluation stage's exit status is discarded
(`os.system(eval_cmd)` on line 350), so a run of 2 samples where sample
1's evaluation command exits 7 does not terminate: both samples execute
all their stages and the run ends without an error code. -/
theorem c1_fail_fast_counterexample :
    ((SampleEnv.mk (fun st => if st = Stage.sEval then 7 else 0) true
        [['#']]).statuses Stage.sEval ≠ 0) ∧
    (runPipeline (fun _ =>
        SampleEnv.mk (fun st => if st = Stage.sEval then 7 else 0) true
          [['#']]) 2).2 = none ∧
    (1, Stage.sEval) ∈ (runPipeline (fun _ =>
        SampleEnv.mk (fun st => if st = Stage.sEval then 7 else 0) true
          [['#']]) 2).1 ∧
    (2, Stage.sImport) ∈ (runPipeline (fun _ =>
        SampleEnv.mk (fun st => if st = Stage.sEval then 7 else 0) true
          [['#']]) 2).1 := by
  refine ⟨by decide, by decide, by decide, by decide⟩

/-- C2 (confirmed): for a sample whose similarity-hit list is empty,
`choose_reference` returns NotFound with the warning printed, the process
does not terminate, and exactly the four reference-dependent stages
(extract, genotype, align, coverage) are skipped while import, count,
sample, blast, choose, trim, normalise, assemble and evaluate all run. -/
theorem c2_notfound_skips :
    ∀ e : SampleEnv,
      hitAccessions e.hits = some [] →
      e.statuses Stage.sImport = 0 → e.statuses Stage.sCount = 0 →
      e.statuses Stage.sSample = 0 → e.blastOk = true →
      e.statuses Stage.sTrim = 0 → e.statuses Stage.sNorm = 0 →
      e.statuses Stage.sAsm = 0 →
      chooseReference e.hits = some ⟨false, none, true⟩ ∧
      runSample e = ([Stage.sImport, Stage.sCount, Stage.sSample, Stage.sBlast,
        Stage.sChoose, Stage.sTrim, Stage.sNorm, Stage.sAsm, Stage.sEval],
        none) := by
  intro e hacc h1 h2 h3 h4 h5 h6 h7
  have hcr : chooseReference e.hits = some ⟨false, none, true⟩ := by
    unfold chooseReference
    rw [hacc]
    simp
  refine ⟨hcr, ?_⟩
  unfold runSample runTail
  rw [hcr]
  simp [h1, h2, h3, h4, h5, h6, h7]

/-- C2 witness: a sample whose blast file holds only a comment line and
whose commands all succeed runs the nine non-reference stages, skips the
four reference-dependent ones, logs the warning and does not
terminate. -/
theorem c2_notfound_skips_witness :
    hitAccessions [['#']] = some [] ∧
    (chooseReference [['#']] = some ⟨false, none, true⟩ ∧
      runSample (SampleEnv.mk (fun _ => 0) true [['#']])
        = ([Stage.sImport, Stage.sCount, Stage.sSample, Stage.sBlast,
            Stage.sChoose, Stage.sTrim, Stage.sNorm, Stage.sAsm, Stage.sEval],
            none)) :=
  ⟨by decide,
   c2_notfound_skips (SampleEnv.mk (fun _ => 0) true [['#']])
     (by decide) rfl rfl rfl rfl rfl rfl rfl⟩
